import Mathlib

/-!
Shallow embedding of the notes_app core (src/models.rs and src/storage.rs).

Modelling conventions:
* Timestamps: the Rust code calls `Local::now().to_rfc3339()` and stores the
  result as an opaque string that it never inspects.  We model the clock as a
  `Nat` passed explicitly to every operation that reads the current time
  (`Note.new`, `Note.update`, and the store operations that call them).
* Identifiers: `Uuid::new_v4().to_string()` is modelled as an explicit
  `newId : String` parameter to `Note.new` / `add_note`; the spec's uniqueness
  assumption about UUIDs becomes a freshness hypothesis where it is needed.
* The file system: `FS := String → Option (Option Json)`.  `fs path = none`
  means the file does not exist (`!path.exists()`); `fs path = some none`
  means the file exists but its bytes are not valid JSON (serde parse error);
  `fs path = some (some j)` means the file exists and parses to the JSON
  value `j`.  serde's text layer is abstracted at the JSON-value level; the
  derived `Serialize`/`Deserialize` field mapping is embedded explicitly
  (`noteToJson` / `jsonToNote`).
* I/O failure: whether a disk write (`save_notes`) succeeds is an explicit
  `wok : Bool` oracle; whether `File::open` succeeds on an existing file is
  an explicit `openOk : Bool` oracle in `load_notes`.
-/

/-- The note entity, from `src/models.rs` (struct `Note`).  Timestamps are
modelled as `Nat` clock readings, see the header comment. -/
structure Note where
  id : String
  title : String
  content : String
  created_at : Nat
  updated_at : Nat
  tags : List String
deriving DecidableEq, Repr, Inhabited

/-- `Note::new` from `src/models.rs`: the fresh UUID is the explicit `newId`
parameter, `now` is the clock reading; `created_at = updated_at = now`. -/
def Note.new (newId title content : String) (tags : List String) (now : Nat) : Note :=
  { id := newId
    title := title
    content := content
    created_at := now
    updated_at := now
    tags := tags }

/-- `Note::update` from `src/models.rs`: each `Some` field replaces the current
value, each `none` field is left untouched, and `updated_at` is set to `now`
unconditionally. -/
def Note.update (n : Note) (title content : Option String) (tags : Option (List String))
    (now : Nat) : Note :=
  { n with
    title := title.getD n.title
    content := content.getD n.content
    tags := tags.getD n.tags
    updated_at := now }

/-- JSON values, restricted to the constructors the persisted document uses. -/
inductive Json where
  | str : String → Json
  | num : Nat → Json
  | arr : List Json → Json
  | obj : List (String × Json) → Json

/-- Extract a JSON string. -/
def jsonToStr : Json → Option String
  | .str s => some s
  | _ => none

/-- Extract a JSON number. -/
def jsonToNat : Json → Option Nat
  | .num n => some n
  | _ => none

/-- serde's sequence deserialization: every element must deserialize, results
in order. -/
def mapOption {α β : Type} (f : α → Option β) : List α → Option (List β)
  | [] => some []
  | a :: as => do
      let b ← f a
      let bs ← mapOption f as
      pure (b :: bs)

/-- Extract a JSON array of strings (the `tags` field). -/
def jsonToTags : Json → Option (List String)
  | .arr js => mapOption jsonToStr js
  | _ => none

/-- The derived `Serialize` impl for `Note`: one JSON object with the six
fields, in declaration order. -/
def noteToJson (n : Note) : Json :=
  .obj [("id", .str n.id), ("title", .str n.title), ("content", .str n.content),
        ("created_at", .num n.created_at), ("updated_at", .num n.updated_at),
        ("tags", .arr (n.tags.map .str))]

/-- The derived `Deserialize` impl for `Note`: all six fields must be present
with the right types, otherwise deserialization fails. -/
def jsonToNote : Json → Option Note
  | .obj kvs => do
      let id ← (kvs.lookup "id").bind jsonToStr
      let title ← (kvs.lookup "title").bind jsonToStr
      let content ← (kvs.lookup "content").bind jsonToStr
      let created_at ← (kvs.lookup "created_at").bind jsonToNat
      let updated_at ← (kvs.lookup "updated_at").bind jsonToNat
      let tags ← (kvs.lookup "tags").bind jsonToTags
      pure { id := id, title := title, content := content,
             created_at := created_at, updated_at := updated_at, tags := tags }
  | _ => none

/-- The persisted document: a JSON array of note objects. -/
def notesToJson (notes : List Note) : Json :=
  .arr (notes.map noteToJson)

/-- Deserializing the persisted document: expects a JSON array whose every
element deserializes to a `Note`. -/
def jsonToNotes : Json → Option (List Note)
  | .arr js => mapOption jsonToNote js
  | _ => none

/-- The modelled file system, see the header comment. -/
def FS : Type := String → Option (Option Json)

/-- The store's error taxonomy as visible at this level: persistence failure. -/
inductive IOErr where
  | ioFailure
deriving DecidableEq, Repr

/-- `NotesManager` from `src/storage.rs`. -/
structure NotesManager where
  notes : List Note
  storage_path : String

/-- Rust `str::to_lowercase`, modelled as per-character lowercasing of the
underlying character list. -/
def strToLower (s : String) : String :=
  ⟨s.data.map Char.toLower⟩

/-- Rust `str::contains`: substring test, via infix of the character lists. -/
def strContains (s pat : String) : Bool :=
  decide (pat.data <:+: s.data)

/-- Rust `Iterator::position`: index of the first element satisfying `p`. -/
def position (p : Note → Bool) : List Note → Option Nat
  | [] => none
  | n :: rest => if p n then some 0 else (position p rest).map (· + 1)

/-- `NotesManager::save_notes`: serializes the whole collection to the
storage path (a full-file rewrite), or fails when the write oracle `wok` is
false (covers `create_dir_all`, `open` and the serde write). -/
def save_notes (m : NotesManager) (fs : FS) (wok : Bool) : FS × Except IOErr Unit :=
  if wok then
    (fun p => if p = m.storage_path then some (some (notesToJson m.notes)) else fs p, .ok ())
  else (fs, .error .ioFailure)

/-- `NotesManager::load_notes`: a missing file is an empty collection; on an
existing file, `File::open` may fail (`openOk = false`), and any serde
failure — invalid JSON (`some none`) or JSON of the wrong structure
(`jsonToNotes j = none`) — degrades to the empty collection. -/
def load_notes (fs : FS) (openOk : Bool) (path : String) : Except IOErr (List Note) :=
  match fs path with
  | none => .ok []
  | some content =>
      if openOk then
        match content with
        | none => .ok []
        | some j =>
            match jsonToNotes j with
            | some notes => .ok notes
            | none => .ok []
      else .error .ioFailure

/-- `NotesManager::add_note`: builds the note, pushes it at the end of the
collection, then saves; a save failure is propagated after the in-memory
push has happened. -/
def add_note (m : NotesManager) (fs : FS) (wok : Bool) (newId title content : String)
    (tags : List String) (now : Nat) : NotesManager × FS × Except IOErr Note :=
  let note := Note.new newId title content tags now
  let m' := { m with notes := m.notes ++ [note] }
  match save_notes m' fs wok with
  | (fs', .ok _) => (m', fs', .ok note)
  | (fs', .error e) => (m', fs', .error e)

/-- `NotesManager::get_note`: first note with the given id, if any. -/
def get_note (m : NotesManager) (id : String) : Option Note :=
  m.notes.find? (fun note => note.id == id)

/-- `NotesManager::search_notes`: lowercase the query once, keep the notes
whose lowercased title, content, or some lowercased tag contains it. -/
def search_notes (m : NotesManager) (query : String) : List Note :=
  let query_lower := strToLower query
  m.notes.filter (fun note =>
    strContains (strToLower note.title) query_lower
    || strContains (strToLower note.content) query_lower
    || note.tags.any (fun tag => strContains (strToLower tag) query_lower))

/-- `NotesManager::delete_note`: retain the notes whose id differs, save only
when something was removed, return whether something was removed. -/
def delete_note (m : NotesManager) (fs : FS) (wok : Bool) (id : String) :
    NotesManager × FS × Except IOErr Bool :=
  let kept := m.notes.filter (fun note => note.id != id)
  let m' := { m with notes := kept }
  if kept.length < m.notes.length then
    match save_notes m' fs wok with
    | (fs', .ok _) => (m', fs', .ok true)
    | (fs', .error e) => (m', fs', .error e)
  else (m', fs, .ok false)

/-- `NotesManager::update_note`: find the index of the note with the given id,
update it in place, then save; `none` when the id is absent. -/
def update_note (m : NotesManager) (fs : FS) (wok : Bool) (id : String)
    (title content : Option String) (tags : Option (List String)) (now : Nat) :
    NotesManager × FS × Except IOErr (Option Note) :=
  match position (fun note => note.id == id) m.notes with
  | some index =>
      let updated_note := (m.notes.getD index default).update title content tags now
      let m' := { m with notes := m.notes.set index updated_note }
      match save_notes m' fs wok with
      | (fs', .ok _) => (m', fs', .ok (some updated_note))
      | (fs', .error e) => (m', fs', .error e)
  | none => (m, fs, .ok none)

/-- The spec's search-match predicate, written from the spec's words: case-fold
both the query and each field, then a note matches when its title, its content,
or any of its tags contains the query as a substring. -/
def specMatches (query : String) (note : Note) : Bool :=
  strContains (strToLower note.title) (strToLower query)
  || strContains (strToLower note.content) (strToLower query)
  || note.tags.any (fun tag => strContains (strToLower tag) (strToLower query))

/-- The store's mutating operations, for stating invariants over sequences. -/
inductive Op where
  | add (newId title content : String) (tags : List String)
  | upd (id : String) (title content : Option String) (tags : Option (List String))
  | del (id : String)

/-- One mutating call: the operation, the clock reading at the call, and the
write oracle for its save. -/
structure TimedOp where
  now : Nat
  wok : Bool
  op : Op

/-- Execute one mutating call against the store state. -/
def runOp (st : NotesManager × FS) (t : TimedOp) : NotesManager × FS :=
  match t.op with
  | .add newId title content tags =>
      let r := add_note st.1 st.2 t.wok newId title content tags t.now
      (r.1, r.2.1)
  | .upd id title content tags =>
      let r := update_note st.1 st.2 t.wok id title content tags t.now
      (r.1, r.2.1)
  | .del id =>
      let r := delete_note st.1 st.2 t.wok id
      (r.1, r.2.1)

/-- Execute a sequence of mutating calls. -/
def runOps (st : NotesManager × FS) (ops : List TimedOp) : NotesManager × FS :=
  ops.foldl runOp st

/-- Timestamp sanity of one note at clock time `t`. -/
def noteOk (t : Nat) (n : Note) : Bool :=
  decide (n.created_at ≤ n.updated_at) && decide (n.updated_at ≤ t)

/-- Timestamp sanity of the whole collection at clock time `t`. -/
def invB (t : Nat) (m : NotesManager) : Bool :=
  m.notes.all (noteOk t)

/-- The clock readings of a call sequence are nondecreasing and start no
earlier than `t`. -/
def timesLe (t : Nat) : List TimedOp → Bool
  | [] => true
  | o :: rest => decide (t ≤ o.now) && timesLe o.now rest

/-- Decidable form of the spec's timestamp invariant over a whole collection:
every note's `updated_at` is at or above its `created_at`. -/
def createdLeUpdated (m : NotesManager) : Bool :=
  m.notes.all (fun n => decide (n.created_at ≤ n.updated_at))

/-- A concrete note used to instantiate the theorems below. -/
def noteW : Note :=
  { id := "a", title := "Groceries", content := "milk, eggs",
    created_at := 1, updated_at := 1, tags := ["home"] }

/-- A second concrete note used to instantiate the theorems below. -/
def noteW2 : Note :=
  { id := "b", title := "Work", content := "TPS report",
    created_at := 2, updated_at := 3, tags := ["office", "urgent"] }

/-- A concrete store used to instantiate the theorems below. -/
def mW : NotesManager :=
  { notes := [noteW, noteW2], storage_path := "data/notes.json" }

/-- The empty file system: no file exists at any path. -/
def fsW : FS := fun _ => none

/-- A file system on which every path holds a file whose bytes are not valid
JSON. -/
def fsBad : FS := fun _ => some none

/-- A concrete call sequence (a create, a failed update, a delete) at
increasing clock readings. -/
def opsW : List TimedOp :=
  [⟨5, true, .add "c" "Trip" "pack bags" ["travel"]⟩,
   ⟨6, false, .upd "a" (some "Groceries2") none none⟩,
   ⟨7, true, .del "b"⟩]

/-- The empty string is a substring of every string. -/
theorem strContains_empty (s : String) : strContains s "" = true := by
  have h : ("" : String).data = [] := rfl
  simp only [strContains, h, decide_eq_true_eq]
  exact ⟨[], s.data, rfl⟩

/-- C1: for every collection and query, `search_notes` returns exactly the
notes matching the spec's predicate (case-folded query is a substring of the
case-folded title, case-folded content, or some case-folded tag) — it is the
order-preserving filter of the collection by that predicate, hence a sublist
of the collection: original relative order, no reordering, no ranking. -/
theorem search_notes_matches_spec (m : NotesManager) (query : String) :
    search_notes m query = m.notes.filter (specMatches query) ∧
    (search_notes m query).Sublist m.notes :=
  ⟨rfl, List.filter_sublist _⟩

/-- C9: searching with the empty query returns the whole collection in its
current order. -/
theorem search_empty_query_returns_all (m : NotesManager) :
    search_notes m "" = m.notes := by
  have h0 : strToLower "" = "" := rfl
  simp only [search_notes, h0]
  apply List.filter_eq_self.mpr
  intro note _
  simp [strContains_empty]

/-- C2: `Note.update` replaces exactly the provided fields (a `some` argument
replaces the field, a `none` argument leaves it untouched), always sets
`updated_at` to the current time — for every combination of arguments,
including all three absent — and never changes `id` or `created_at`. -/
theorem update_replaces_exactly_provided (n : Note) (title content : Option String)
    (tags : Option (List String)) (now : Nat) :
    ((n.update title content tags now).id = n.id ∧
     (n.update title content tags now).created_at = n.created_at ∧
     (n.update title content tags now).updated_at = now) ∧
    (∀ t, title = some t → (n.update title content tags now).title = t) ∧
    (title = none → (n.update title content tags now).title = n.title) ∧
    (∀ c, content = some c → (n.update title content tags now).content = c) ∧
    (content = none → (n.update title content tags now).content = n.content) ∧
    (∀ ts, tags = some ts → (n.update title content tags now).tags = ts) ∧
    (tags = none → (n.update title content tags now).tags = n.tags) := by
  refine ⟨⟨rfl, rfl, rfl⟩, ?_, ?_, ?_, ?_, ?_, ?_⟩
  · intro t ht; subst ht; rfl
  · intro ht; subst ht; rfl
  · intro c hc; subst hc; rfl
  · intro hc; subst hc; rfl
  · intro ts hts; subst hts; rfl
  · intro hts; subst hts; rfl

/-- C2 witness: at a concrete note, a provided title is replaced, an absent
content is untouched, `updated_at` becomes the clock reading and `created_at`
survives. -/
theorem update_replaces_exactly_provided_witness :
    (noteW.update (some "Todo") none none 9).title = "Todo" ∧
    (noteW.update (some "Todo") none none 9).content = noteW.content ∧
    (noteW.update (some "Todo") none none 9).updated_at = 9 ∧
    (noteW.update (some "Todo") none none 9).created_at = noteW.created_at :=
  ⟨(update_replaces_exactly_provided noteW (some "Todo") none none 9).2.1 "Todo" rfl,
   (update_replaces_exactly_provided noteW (some "Todo") none none 9).2.2.2.2.1 rfl,
   (update_replaces_exactly_provided noteW (some "Todo") none none 9).1.2.2,
   (update_replaces_exactly_provided noteW (some "Todo") none none 9).1.2.1⟩

/-- Mapping string extraction over serialized strings is the identity. -/
theorem mapOption_jsonToStr (ts : List String) :
    mapOption jsonToStr (ts.map Json.str) = some ts := by
  induction ts with
  | nil => rfl
  | cons t ts ih => simp [mapOption, jsonToStr, ih]

/-- Deserializing a serialized note yields the note back. -/
theorem jsonToNote_noteToJson (n : Note) : jsonToNote (noteToJson n) = some n := by
  simp [jsonToNote, noteToJson, List.lookup, jsonToStr, jsonToNat, jsonToTags,
    mapOption_jsonToStr]

/-- Deserializing a serialized collection yields the collection back. -/
theorem jsonToNotes_notesToJson (notes : List Note) :
    jsonToNotes (notesToJson notes) = some notes := by
  induction notes with
  | nil => rfl
  | cons n notes ih =>
      have ih' : mapOption jsonToNote (notes.map noteToJson) = some notes := ih
      simp [jsonToNotes, notesToJson, mapOption, jsonToNote_noteToJson, ih']

/-- C3: saving a collection to its path and loading from that same path yields
the same notes, all fields identical, in the same order. -/
theorem save_load_roundtrip (m : NotesManager) (fs fs' : FS)
    (h : save_notes m fs true = (fs', .ok ())) :
    load_notes fs' true m.storage_path = .ok m.notes := by
  have hfs : fs' =
      fun p => if p = m.storage_path then some (some (notesToJson m.notes)) else fs p := by
    have h1 := congrArg Prod.fst h
    simpa [save_notes] using h1.symm
  simp [load_notes, hfs, jsonToNotes_notesToJson]

/-- C3 witness: the round trip at a concrete two-note store over the empty
file system. -/
theorem save_load_roundtrip_witness :
    load_notes (save_notes mW fsW true).1 true mW.storage_path = .ok mW.notes :=
  save_load_roundtrip mW fsW (save_notes mW fsW true).1 rfl

/-- C4: loading degrades to the empty collection — not an `IOFailure` — when
the file is absent, when its bytes are not valid JSON, or when its JSON does
not have the expected structure. -/
theorem load_degrades_to_empty (fs : FS) (path : String)
    (h : fs path = none ∨ fs path = some none ∨
         ∃ j, fs path = some (some j) ∧ jsonToNotes j = none) :
    load_notes fs true path = .ok [] := by
  rcases h with h | h | ⟨j, hj, hn⟩
  · simp [load_notes, h]
  · simp [load_notes, h]
  · simp [load_notes, hj, hn]

/-- C4 witness: loading a file that exists everywhere but never holds valid
JSON returns the empty collection without error. -/
theorem load_degrades_to_empty_witness :
    load_notes fsBad true "data/notes.json" = .ok [] :=
  load_degrades_to_empty fsBad "data/notes.json" (Or.inr (Or.inl rfl))

/-- C5: a successful `add_note` returns a note with `created_at = updated_at`,
appends it at the end of the collection leaving all prior notes in place, and
— provided the generated identifier is fresh, the spec's UUID assumption —
`get_note` on the returned note's id immediately returns that note. -/
theorem add_note_spec (m : NotesManager) (fs : FS) (newId title content : String)
    (tags : List String) (now : Nat)
    (hfresh : ∀ n ∈ m.notes, n.id ≠ newId) :
    (add_note m fs true newId title content tags now).2.2 =
      .ok (Note.new newId title content tags now) ∧
    (Note.new newId title content tags now).created_at =
      (Note.new newId title content tags now).updated_at ∧
    (add_note m fs true newId title content tags now).1.notes =
      m.notes ++ [Note.new newId title content tags now] ∧
    get_note (add_note m fs true newId title content tags now).1 newId =
      some (Note.new newId title content tags now) := by
  refine ⟨rfl, rfl, rfl, ?_⟩
  show (m.notes ++ [Note.new newId title content tags now]).find?
      (fun note => note.id == newId) = some (Note.new newId title content tags now)
  rw [List.find?_append]
  have h1 : m.notes.find? (fun note => note.id == newId) = none := by
    rw [List.find?_eq_none]
    intro x hx
    simpa using hfresh x hx
  rw [h1]
  simp [List.find?, Note.new]

/-- C5 witness: creating a note with a fresh id in the concrete store makes it
immediately retrievable by id. -/
theorem add_note_spec_witness :
    get_note (add_note mW fsW true "zz" "Trip" "pack bags" ["travel"] 5).1 "zz" =
      some (Note.new "zz" "Trip" "pack bags" ["travel"] 5) :=
  (add_note_spec mW fsW "zz" "Trip" "pack bags" ["travel"] 5 (by decide)).2.2.2

/-- Whatever the write oracle and outcome, the in-memory collection after
`delete_note` is the filtered collection. -/
theorem delete_note_fst (m : NotesManager) (fs : FS) (wok : Bool) (id : String) :
    (delete_note m fs wok id).1 =
      { m with notes := m.notes.filter (fun note => note.id != id) } := by
  cases wok <;> simp [delete_note, save_notes] <;> split <;> rfl

/-- The filtered list is strictly shorter exactly when some element fails the
predicate. -/
theorem length_filter_lt_iff {α : Type} (p : α → Bool) (l : List α) :
    (l.filter p).length < l.length ↔ ∃ x ∈ l, p x = false := by
  induction l with
  | nil => simp
  | cons a l ih =>
      by_cases h : p a
      · simp [List.filter_cons, h, Nat.succ_lt_succ_iff, ih]
      · simp only [List.filter_cons, h, if_neg]
        constructor
        · intro _
          exact ⟨a, List.mem_cons_self a l, by simpa using h⟩
        · intro _
          simpa using Nat.lt_succ_of_le (List.length_filter_le p l)

/-- A successful `delete_note` reports exactly whether some note carried the
deleted id. -/
theorem delete_note_result_bool (m : NotesManager) (fs : FS) (id : String) :
    (delete_note m fs true id).2.2 = .ok (decide (∃ n ∈ m.notes, n.id = id)) := by
  have hiff : (m.notes.filter (fun note => note.id != id)).length < m.notes.length ↔
      ∃ n ∈ m.notes, n.id = id := by
    rw [length_filter_lt_iff]
    constructor
    · rintro ⟨x, hx, hpx⟩
      exact ⟨x, hx, by simpa using hpx⟩
    · rintro ⟨x, hx, hpx⟩
      exact ⟨x, hx, by simpa using hpx⟩
  by_cases hrem : (m.notes.filter (fun note => note.id != id)).length < m.notes.length
  · have hex : (∃ n ∈ m.notes, n.id = id) := hiff.mp hrem
    simp [delete_note, save_notes, hrem, hex]
  · have hex : ¬(∃ n ∈ m.notes, n.id = id) := fun h => hrem (hiff.mpr h)
    simp [delete_note, save_notes, hrem, hex]

/-- C6: after `delete_note` the deleted id resolves to nothing (`get_note`
reports not-found) whatever the write outcome; a successful `delete_note`
returns precisely whether a note with that id existed; and the surviving notes
keep their original relative order (the result is a sublist). -/
theorem delete_then_get_none (m : NotesManager) (fs : FS) (wok : Bool) (id : String) :
    get_note (delete_note m fs wok id).1 id = none ∧
    (delete_note m fs true id).2.2 = .ok (decide (∃ n ∈ m.notes, n.id = id)) ∧
    ((delete_note m fs wok id).1.notes).Sublist m.notes := by
  refine ⟨?_, delete_note_result_bool m fs id, ?_⟩
  · rw [get_note, delete_note_fst]
    rw [List.find?_eq_none]
    intro x hx
    have hpx := (List.mem_filter.mp hx).2
    simpa using hpx
  · rw [delete_note_fst]
    exact List.filter_sublist _

/-- C10: `delete_note` removes every note whose id matches (not only the
first); a successful call returns true exactly when at least one note matched;
and on a no-match call the store, the file system and the success result are
all untouched — no persistence write happens, so the call cannot fail. -/
theorem delete_removes_all_matching (m : NotesManager) (fs : FS) (wok : Bool) (id : String) :
    (delete_note m fs wok id).1.notes = m.notes.filter (fun note => note.id != id) ∧
    (delete_note m fs true id).2.2 = .ok (decide (∃ n ∈ m.notes, n.id = id)) ∧
    ((∀ n ∈ m.notes, n.id ≠ id) → delete_note m fs wok id = (m, fs, .ok false)) := by
  refine ⟨congrArg NotesManager.notes (delete_note_fst m fs wok id),
    delete_note_result_bool m fs id, ?_⟩
  intro hnone
  have hk : m.notes.filter (fun note => note.id != id) = m.notes :=
    List.filter_eq_self.mpr fun a ha => by simpa using hnone a ha
  simp [delete_note, hk]

/-- C10 witness: deleting an absent id from the concrete store changes
nothing, performs no write, and returns false even though every write would
fail. -/
theorem delete_removes_all_matching_witness :
    delete_note mW fsW false "zz" = (mW, fsW, .ok false) :=
  (delete_removes_all_matching mW fsW false "zz").2.2 (by decide)

/-- C8: when the persistence write fails, each mutating operation returns
`IOFailure` while the in-memory collection keeps the already-applied mutation
(the append, the in-place field update, or the removal) and the file system is
left as it was — memory and disk diverge. -/
theorem mutation_kept_on_save_failure (m : NotesManager) (fs : FS)
    (newId title content : String) (tags : List String)
    (t c : Option String) (tg : Option (List String)) (now : Nat) (id : String) :
    (add_note m fs false newId title content tags now =
      ({ m with notes := m.notes ++ [Note.new newId title content tags now] }, fs,
        .error .ioFailure)) ∧
    (∀ i, position (fun note => note.id == id) m.notes = some i →
      update_note m fs false id t c tg now =
        ({ m with notes := m.notes.set i ((m.notes.getD i default).update t c tg now) }, fs,
          .error .ioFailure)) ∧
    ((∃ n ∈ m.notes, n.id = id) →
      delete_note m fs false id =
        ({ m with notes := m.notes.filter (fun note => note.id != id) }, fs,
          .error .ioFailure)) := by
  refine ⟨by simp [add_note, save_notes], ?_, ?_⟩
  · intro i hi
    simp [update_note, hi, save_notes]
  · intro hex
    have hrem : (m.notes.filter (fun note => note.id != id)).length < m.notes.length := by
      rw [length_filter_lt_iff]
      obtain ⟨x, hx, hpx⟩ := hex
      exact ⟨x, hx, by simpa using hpx⟩
    simp [delete_note, save_notes, hrem]

/-- C8 witness: a failing write on a real deletion reports `IOFailure`, yet
the note is gone from memory and the file system is untouched. -/
theorem mutation_kept_on_save_failure_witness :
    delete_note mW fsW false "a" =
      ({ mW with notes := mW.notes.filter (fun note => note.id != "a") }, fsW,
        .error .ioFailure) :=
  (mutation_kept_on_save_failure mW fsW "x" "t" "c" [] none none none 0 "a").2.2 (by decide)

/-- Unfolding of the collection timestamp-sanity check. -/
theorem invB_iff (t : Nat) (m : NotesManager) :
    invB t m = true ↔ ∀ n ∈ m.notes, n.created_at ≤ n.updated_at ∧ n.updated_at ≤ t := by
  simp [invB, noteOk, List.all_eq_true]

/-- Timestamp sanity is monotone in the clock bound. -/
theorem invB_mono {t t' : Nat} {m : NotesManager} (h : t ≤ t') (hm : invB t m = true) :
    invB t' m = true := by
  rw [invB_iff] at hm ⊢
  intro n hn
  exact ⟨(hm n hn).1, Nat.le_trans (hm n hn).2 h⟩

/-- Whatever the write outcome, the collection after `add_note` is the old
collection with the new note appended. -/
theorem add_note_fst (m : NotesManager) (fs : FS) (wok : Bool)
    (newId title content : String) (tags : List String) (now : Nat) :
    (add_note m fs wok newId title content tags now).1 =
      { m with notes := m.notes ++ [Note.new newId title content tags now] } := by
  cases wok <;> simp [add_note, save_notes]

/-- Whatever the write outcome, when the id is found at some index the
collection after `update_note` has the updated note written at that index. -/
theorem update_note_fst_some (m : NotesManager) (fs : FS) (wok : Bool) (id : String)
    (title content : Option String) (tags : Option (List String)) (now : Nat) (i : Nat)
    (h : position (fun note => note.id == id) m.notes = some i) :
    (update_note m fs wok id title content tags now).1 =
      { m with notes := m.notes.set i ((m.notes.getD i default).update title content tags now) } := by
  cases wok <;> simp [update_note, h, save_notes]

/-- When the id is not found, `update_note` leaves the store untouched. -/
theorem update_note_fst_none (m : NotesManager) (fs : FS) (wok : Bool) (id : String)
    (title content : Option String) (tags : Option (List String)) (now : Nat)
    (h : position (fun note => note.id == id) m.notes = none) :
    (update_note m fs wok id title content tags now).1 = m := by
  cases wok <;> simp [update_note, h]

/-- The element a successful `position` points at is in the list. -/
theorem position_getD_mem (p : Note → Bool) (l : List Note) (i : Nat) (d : Note)
    (h : position p l = some i) : l.getD i d ∈ l := by
  induction l generalizing i with
  | nil => simp [position] at h
  | cons n rest ih =>
      rw [position] at h
      by_cases hp : p n
      · rw [if_pos hp] at h
        obtain rfl : (0 : Nat) = i := Option.some.inj h
        exact List.mem_cons_self n rest
      · rw [if_neg hp] at h
        obtain ⟨j, hj, rfl⟩ := Option.map_eq_some'.mp h
        exact List.mem_cons_of_mem n (ih j hj)

/-- One mutating call preserves timestamp sanity when its clock reading is no
earlier than the bound. -/
theorem runOp_inv (st : NotesManager × FS) (o : TimedOp) (t : Nat)
    (hinv : invB t st.1 = true) (ht : t ≤ o.now) : invB o.now (runOp st o).1 = true := by
  have hinv' := (invB_iff t st.1).mp hinv
  cases hop : o.op with
  | add newId title content tags =>
      rw [invB_iff]
      intro n hn
      rw [runOp, hop] at hn
      simp only [add_note_fst] at hn
      rcases List.mem_append.mp hn with hn | hn
      · exact ⟨(hinv' n hn).1, Nat.le_trans (hinv' n hn).2 ht⟩
      · have : n = Note.new newId title content tags o.now := List.mem_singleton.mp hn
        subst this
        exact ⟨Nat.le_refl _, Nat.le_refl _⟩
  | upd id title content tags =>
      rw [invB_iff]
      intro n hn
      rw [runOp, hop] at hn
      cases hpos : position (fun note => note.id == id) st.1.notes with
      | none =>
          rw [update_note_fst_none _ _ _ _ _ _ _ _ hpos] at hn
          exact ⟨(hinv' n hn).1, Nat.le_trans (hinv' n hn).2 ht⟩
      | some i =>
          rw [update_note_fst_some _ _ _ _ _ _ _ _ _ hpos] at hn
          simp only at hn
          rcases List.mem_or_eq_of_mem_set hn with hn | hn
          · exact ⟨(hinv' n hn).1, Nat.le_trans (hinv' n hn).2 ht⟩
          · subst hn
            have hold := hinv' _ (position_getD_mem _ _ _ default hpos)
            refine ⟨?_, Nat.le_refl _⟩
            show (st.1.notes.getD i default).created_at ≤ o.now
            exact Nat.le_trans (Nat.le_trans hold.1 hold.2) ht
  | del id =>
      rw [invB_iff]
      intro n hn
      rw [runOp, hop] at hn
      simp only [delete_note_fst] at hn
      have hn' := List.mem_of_mem_filter hn
      exact ⟨(hinv' n hn').1, Nat.le_trans (hinv' n hn').2 ht⟩

/-- Over any call sequence with nondecreasing clock readings, every surviving
note's `updated_at` stays at or above its `created_at`. -/
theorem runOps_inv (ops : List TimedOp) (st : NotesManager × FS) (t : Nat)
    (hinv : invB t st.1 = true) (hts : timesLe t ops = true) :
    ∀ n ∈ (runOps st ops).1.notes, n.created_at ≤ n.updated_at := by
  induction ops generalizing st t with
  | nil =>
      intro n hn
      exact (((invB_iff t st.1).mp hinv) n hn).1
  | cons o rest ih =>
      rw [timesLe, Bool.and_eq_true, decide_eq_true_eq] at hts
      exact ih (runOp st o) o.now (runOp_inv st o t hinv hts.1) hts.2

/-- C7: `Note.update` — the only mutation of an existing note anywhere in the
store — never changes `created_at` (nor `id`); and across every sequence of
store operations executed at nondecreasing clock readings, every note in the
collection keeps `created_at ≤ updated_at`. -/
theorem timestamps_invariant (m : NotesManager) (fs : FS) (ops : List TimedOp) (t0 : Nat)
    (hinv : invB t0 m = true) (hts : timesLe t0 ops = true) :
    (∀ (n : Note) (title content : Option String) (tags : Option (List String)) (now : Nat),
        (n.update title content tags now).created_at = n.created_at ∧
        (n.update title content tags now).id = n.id) ∧
    createdLeUpdated (runOps (m, fs) ops).1 = true := by
  refine ⟨fun _ _ _ _ _ => ⟨rfl, rfl⟩, ?_⟩
  rw [createdLeUpdated, List.all_eq_true]
  intro n hn
  simpa using runOps_inv ops (m, fs) t0 hinv hts n hn

/-- C7 witness: the invariant after a concrete create/update/delete sequence
against the concrete store. -/
theorem timestamps_invariant_witness :
    createdLeUpdated (runOps (mW, fsW) opsW).1 = true :=
  (timestamps_invariant mW fsW opsW 3 (by decide) (by decide)).2
